import Mathlib

/-!
Verification of the DVBridge transport framing layer and bit-unpacking decoder.

The C++ sources (`tcp_receiver.cpp`, `udp_receiver.cpp`, `config.hpp`,
`frame_unpacker.hpp`) are embedded shallowly: socket I/O is modelled by an
explicit oracle (a list of network events consumed by each receive call),
receiver objects become records passed and returned explicitly, and byte
buffers become lists of naturals.  An exhausted oracle stands for a receive
call that fails (the blocking call never being answered is not expressible);
all claims are settled on runs where the oracle answers.
-/

namespace DVBridge

/-- Embeds `struct Config` from `config.hpp`: the fields the framing layer and
decoder consult.  Network endpoint strings and timing fields are irrelevant to
the verified behaviour and omitted. -/
structure Config where
  width : Nat
  height : Nat
  udp_packet_size : Nat
  has_header : Bool
  header_size : Nat
  msb_first : Bool
  positive_first : Bool
  row_major : Bool
  verbose : Bool
deriving DecidableEq, Repr

/-- `Config::pixels_per_channel` : `width * height`. -/
def Config.pixels_per_channel (c : Config) : Nat := c.width * c.height

/-- `Config::bytes_per_channel` : `pixels_per_channel() / 8`. -/
def Config.bytes_per_channel (c : Config) : Nat := c.pixels_per_channel / 8

/-- `Config::frame_size` : `2 * bytes_per_channel()`. -/
def Config.frame_size (c : Config) : Nat := 2 * c.bytes_per_channel

/-- One answer of the OS to a blocking `recv` on the TCP socket:
a chunk of stream data (recv returns its length, at most the requested
amount, with the rest kept in the OS buffer), an orderly close (recv
returns 0), or an error (recv returns a negative value). -/
inductive NetEvent where
  | chunk (bytes : List Nat)
  | close
  | err
deriving DecidableEq, Repr

/-- State of `class TcpReceiver` (`tcp_receiver.cpp`): the socket handle
(`socket_`, `none` standing for `INVALID_SOCK`), `connected_`, and the two
statistics counters. -/
structure TcpReceiver where
  socket : Option Nat
  connected : Bool
  total_bytes_received : Nat
  total_frames_received : Nat
deriving DecidableEq, Repr

/-- The read-exact loop of `TcpReceiver::receiveExact`.  `rem` is
`size - total_received`; `acc` is the filled prefix of the caller's buffer.
Each iteration consumes the head oracle event: a chunk delivers
`bytes.take rem` and pushes any remainder back to the front of the oracle
(data left in the OS buffer), a close or error (or an exhausted oracle) sets
`connected_ = false` and fails.  `fuel` makes the recursion structural; the
top-level call passes `fuel = rem`, which the loop never exhausts because
every iteration delivers at least one byte. -/
def receiveExactAux : Nat → Nat → List Nat → TcpReceiver → List NetEvent →
    Option (List Nat) × TcpReceiver × List NetEvent
  | _, 0, acc, rx, net => (some acc, rx, net)
  | 0, _ + 1, _, rx, net => (none, { rx with connected := false }, net)
  | fuel + 1, rem + 1, acc, rx, net =>
    match net with
    | [] => (none, { rx with connected := false }, [])
    | NetEvent.close :: rest => (none, { rx with connected := false }, rest)
    | NetEvent.err :: rest => (none, { rx with connected := false }, rest)
    | NetEvent.chunk bs :: rest =>
      let delivered := bs.take (rem + 1)
      if delivered.length = 0 then
        (none, { rx with connected := false }, rest)
      else
        receiveExactAux fuel (rem + 1 - delivered.length) (acc ++ delivered)
          { rx with total_bytes_received :=
              rx.total_bytes_received + delivered.length }
          (if bs.length ≤ rem + 1 then rest
           else NetEvent.chunk (bs.drop (rem + 1)) :: rest)

/-- `TcpReceiver::receiveExact(buffer, size)`: on success the returned list is
the exact-length buffer contents. -/
def TcpReceiver.receiveExact (rx : TcpReceiver) (size : Nat)
    (net : List NetEvent) : Option (List Nat) × TcpReceiver × List NetEvent :=
  receiveExactAux size size [] rx net

/-- Little-endian unsigned value of the header bytes, as produced by reading
`header_size` bytes into the zero-initialised `uint32_t header_frame_size`
on a little-endian host. -/
def leVal : List Nat → Nat
  | [] => 0
  | b :: rest => b + 256 * leVal rest

/-- The sanity check of `TcpReceiver::receiveFrame` on the header value:
`if (header_frame_size > 0 && header_frame_size < 100000000)
   frame_size = header_frame_size;` else keep `getFrameSize()`. -/
def chooseFrameSize (cfg : Config) (v : Nat) : Nat :=
  if 0 < v ∧ v < 100000000 then v else cfg.frame_size

/-- Tail of `TcpReceiver::receiveFrame` after the frame size is fixed:
`buffer.resize(frame_size); receiveExact(buffer.data(), frame_size)`;
on success `total_frames_received_++`. -/
def tcpFinishFrame (fsize : Nat) (rx : TcpReceiver) (net : List NetEvent) :
    Option (List Nat) × TcpReceiver × List NetEvent :=
  match rx.receiveExact fsize net with
  | (some buf, rx', net') =>
    (some buf,
     { rx' with total_frames_received := rx'.total_frames_received + 1 },
     net')
  | (none, rx', net') => (none, rx', net')

/-- `TcpReceiver::receiveFrame(buffer)`: fail when not connected; when
`config_.has_header`, read exactly `header_size` bytes and clamp the
little-endian value, then read the frame body. -/
def TcpReceiver.receiveFrame (cfg : Config) (rx : TcpReceiver)
    (net : List NetEvent) : Option (List Nat) × TcpReceiver × List NetEvent :=
  if rx.connected = false then (none, rx, net)
  else if cfg.has_header then
    match rx.receiveExact cfg.header_size net with
    | (none, rx', net') => (none, rx', net')
    | (some hdr, rx', net') => tcpFinishFrame (chooseFrameSize cfg (leVal hdr)) rx' net'
  else tcpFinishFrame cfg.frame_size rx net

/-- `TcpReceiver::getFrameSize` : `config_.frame_size()`. -/
def TcpReceiver.getFrameSize (cfg : Config) : Nat := cfg.frame_size

/-- `TcpReceiver::disconnect`: close the socket when it is valid, mark
disconnected.  The second component lists the handles released by this call
(so that double release is expressible). -/
def TcpReceiver.disconnect (rx : TcpReceiver) : TcpReceiver × List Nat :=
  match rx.socket with
  | some s => ({ rx with socket := none, connected := false }, [s])
  | none => ({ rx with connected := false }, [])

/-- Outcome of the environment for one `connect()` attempt: socket creation
fails; socket `h` is created and a later step (address parse or `::connect`)
fails; or socket `h` is created and the connection succeeds. -/
inductive ConnEnv where
  | sockFail
  | failAfter (h : Nat)
  | ok (h : Nat)
deriving DecidableEq, Repr

/-- `TcpReceiver::connect`: no-op success when already connected; on socket
creation failure return failure with the state unchanged; on a failure after
socket creation the code calls `disconnect()` and fails; on success set
`connected_ = true` and reset both statistics counters. -/
def TcpReceiver.connect (rx : TcpReceiver) (env : ConnEnv) :
    TcpReceiver × Bool :=
  if rx.connected then (rx, true)
  else
    match env with
    | ConnEnv.sockFail => (rx, false)
    | ConnEnv.failAfter h =>
      (({ rx with socket := some h } : TcpReceiver).disconnect.1, false)
    | ConnEnv.ok h =>
      ({ rx with
          socket := some h
          connected := true
          total_bytes_received := 0
          total_frames_received := 0 }, true)

/-- One answer of the OS to a blocking `recvfrom` on the UDP socket: a
datagram (`recvfrom` returns its length truncated to the scratch-buffer
size, discarding any excess) or an error (negative return).  An empty
datagram makes `recvfrom` return 0, which the code treats as a closed
socket. -/
inductive UdpEvent where
  | dgram (bytes : List Nat)
  | err
deriving DecidableEq, Repr

/-- State of `class UdpReceiver` (`udp_receiver.cpp`): socket handle,
`bound_`, the accumulation offset `accumulated_bytes_`, and the two
statistics counters.  The scratch packet buffer is represented by its size,
`config_.udp_packet_size`. -/
structure UdpReceiver where
  socket : Option Nat
  bound : Bool
  accumulated_bytes : Nat
  total_bytes_received : Nat
  total_frames_received : Nat
deriving DecidableEq, Repr

/-- The accumulation loop of `UdpReceiver::receiveFrame`.  `acc` is the
prefix of the output buffer written so far (the buffer has been resized to
`fsize`; writes land at offset `accumulated_bytes_`).  Each iteration
consumes the head oracle event: `recvfrom` delivers
`bytes.take cfg.udp_packet_size`; a result of 0 or an error (or an exhausted
oracle) sets `bound_ = false` and fails; otherwise
`bytes_to_copy = min (fsize - accumulated) received` bytes are copied, the
offset advances by `bytes_to_copy`, and the byte counter grows by the full
`received`.  The loop exits with success once `accumulated_bytes_` reaches
`fsize`, incrementing the frame counter. -/
def udpLoop (cfg : Config) (fsize : Nat) :
    List UdpEvent → List Nat → UdpReceiver →
    Option (List Nat) × UdpReceiver × List UdpEvent
  | [], acc, rx =>
    if rx.accumulated_bytes < fsize then
      (none, { rx with bound := false }, [])
    else
      (some acc,
       { rx with total_frames_received := rx.total_frames_received + 1 },
       [])
  | UdpEvent.err :: rest, acc, rx =>
    if rx.accumulated_bytes < fsize then
      (none, { rx with bound := false }, rest)
    else
      (some acc,
       { rx with total_frames_received := rx.total_frames_received + 1 },
       UdpEvent.err :: rest)
  | UdpEvent.dgram bytes :: rest, acc, rx =>
    if rx.accumulated_bytes < fsize then
      let delivered := bytes.take cfg.udp_packet_size
      if delivered.length = 0 then
        (none, { rx with bound := false }, rest)
      else
        let bytes_needed := fsize - rx.accumulated_bytes
        let bytes_to_copy := min bytes_needed delivered.length
        udpLoop cfg fsize rest (acc ++ delivered.take bytes_to_copy)
          { rx with
              accumulated_bytes := rx.accumulated_bytes + bytes_to_copy
              total_bytes_received :=
                rx.total_bytes_received + delivered.length }
    else
      (some acc,
       { rx with total_frames_received := rx.total_frames_received + 1 },
       UdpEvent.dgram bytes :: rest)

/-- `UdpReceiver::receiveFrame(buffer)`: fail when not bound; resize the
output buffer to `getFrameSize()`, reset `accumulated_bytes_ = 0`, then run
the accumulation loop. -/
def UdpReceiver.receiveFrame (cfg : Config) (rx : UdpReceiver)
    (net : List UdpEvent) : Option (List Nat) × UdpReceiver × List UdpEvent :=
  if rx.bound = false then (none, rx, net)
  else udpLoop cfg cfg.frame_size net [] { rx with accumulated_bytes := 0 }

/-- `UdpReceiver::getFrameSize` : `config_.frame_size()`. -/
def UdpReceiver.getFrameSize (cfg : Config) : Nat := cfg.frame_size

/-- `UdpReceiver::disconnect`: close the socket when valid, mark unbound and
reset `accumulated_bytes_ = 0`.  The second component lists the handles
released by this call. -/
def UdpReceiver.disconnect (rx : UdpReceiver) : UdpReceiver × List Nat :=
  match rx.socket with
  | some s =>
    ({ rx with socket := none, bound := false, accumulated_bytes := 0 }, [s])
  | none => ({ rx with bound := false, accumulated_bytes := 0 }, [])

/-- `UdpReceiver::connect` (bind semantics): no-op success when already
bound; on socket creation failure return failure unchanged; on a failure
after socket creation (`inet_pton`, `bind`) the code calls `disconnect()`
and fails; on success set `bound_ = true` and reset both counters and the
accumulation offset. -/
def UdpReceiver.connect (rx : UdpReceiver) (env : ConnEnv) :
    UdpReceiver × Bool :=
  if rx.bound then (rx, true)
  else
    match env with
    | ConnEnv.sockFail => (rx, false)
    | ConnEnv.failAfter h =>
      (({ rx with socket := some h } : UdpReceiver).disconnect.1, false)
    | ConnEnv.ok h =>
      ({ rx with
          socket := some h
          bound := true
          accumulated_bytes := 0
          total_bytes_received := 0
          total_frames_received := 0 }, true)

/-- Modelled from the spec: the implementation of `FrameUnpacker`
(`unpack` / `unpackChannelFast`, declared in `frame_unpacker.hpp`) is not
under `src/`.  Section 4.3 of the spec fixes the pixel offset of a set bit
within its byte: with `msb_first`, bit 7 is the first pixel of the byte,
otherwise bit 0 is. -/
def bitPixelOffset (msb_first : Bool) (bit : Nat) : Nat :=
  if msb_first then 7 - bit else bit

/-- Modelled from the spec: the decoder's mapping from (byte index, bit
index) within one channel to the pixel coordinate `(x, y)`.  The linear
pixel index is `8 * byteIdx + bitPixelOffset`; under `row_major` the bit
advances `x` within a row, wrapping each `width` pixels; under column-major
the bit advances `y`, wrapping each `height` pixels. -/
def coordOfBit (cfg : Config) (byteIdx bit : Nat) : Nat × Nat :=
  if cfg.row_major then
    ((8 * byteIdx + bitPixelOffset cfg.msb_first bit) % cfg.width,
     (8 * byteIdx + bitPixelOffset cfg.msb_first bit) / cfg.width)
  else
    ((8 * byteIdx + bitPixelOffset cfg.msb_first bit) / cfg.height,
     (8 * byteIdx + bitPixelOffset cfg.msb_first bit) % cfg.height)

/-- On success the read-exact loop delivers exactly the outstanding byte
count, adds exactly that many bytes to the byte counter, and leaves the
frame counter, connection flag and socket untouched. -/
theorem receiveExactAux_some :
    ∀ (fuel rem : Nat) (acc : List Nat) (rx : TcpReceiver)
      (net : List NetEvent) (out : List Nat) (rx' : TcpReceiver)
      (net' : List NetEvent),
    rem ≤ fuel →
    receiveExactAux fuel rem acc rx net = (some out, rx', net') →
    out.length = acc.length + rem ∧
    rx'.total_bytes_received = rx.total_bytes_received + rem ∧
    rx'.total_frames_received = rx.total_frames_received ∧
    rx'.connected = rx.connected ∧ rx'.socket = rx.socket := by
  intro fuel
  induction fuel with
  | zero =>
    intro rem acc rx net out rx' net' hle h
    have hrem : rem = 0 := Nat.le_zero.mp hle
    subst hrem
    simp only [receiveExactAux, Prod.mk.injEq, Option.some.injEq] at h
    obtain ⟨h1, h2, h3⟩ := h
    subst h1; subst h2; subst h3
    simp
  | succ f ih =>
    intro rem acc rx net out rx' net' hle h
    cases rem with
    | zero =>
      simp only [receiveExactAux, Prod.mk.injEq, Option.some.injEq] at h
      obtain ⟨h1, h2, h3⟩ := h
      subst h1; subst h2; subst h3
      simp
    | succ r =>
      cases net with
      | nil => simp [receiveExactAux] at h
      | cons e rest =>
        cases e with
        | close => simp [receiveExactAux] at h
        | err => simp [receiveExactAux] at h
        | chunk bs =>
          simp only [receiveExactAux] at h
          by_cases hz : (bs.take (r + 1)).length = 0
          · rw [if_pos hz] at h
            simp at h
          · rw [if_neg hz] at h
            have hdle : (bs.take (r + 1)).length ≤ r + 1 := by
              simp [List.length_take]
            have hrem' : r + 1 - (bs.take (r + 1)).length ≤ f := by omega
            obtain ⟨h1, h2, h3, h4, h5⟩ := ih _ _ _ _ _ _ _ hrem' h
            refine ⟨?_, ?_, ?_, ?_, ?_⟩
            · rw [h1]; simp only [List.length_append]; omega
            · rw [h2]; simp only []; omega
            · rw [h3]
            · rw [h4]
            · rw [h5]

/-- On failure the read-exact loop leaves the receiver marked disconnected
and the frame counter and socket untouched. -/
theorem receiveExactAux_none :
    ∀ (fuel rem : Nat) (acc : List Nat) (rx : TcpReceiver)
      (net : List NetEvent) (rx' : TcpReceiver) (net' : List NetEvent),
    receiveExactAux fuel rem acc rx net = (none, rx', net') →
    rx'.connected = false ∧
    rx'.total_frames_received = rx.total_frames_received ∧
    rx'.socket = rx.socket := by
  intro fuel
  induction fuel with
  | zero =>
    intro rem acc rx net rx' net' h
    cases rem with
    | zero => simp [receiveExactAux] at h
    | succ r =>
      simp only [receiveExactAux, Prod.mk.injEq] at h
      obtain ⟨h1, h2, h3⟩ := h
      subst h2
      simp
  | succ f ih =>
    intro rem acc rx net rx' net' h
    cases rem with
    | zero => simp [receiveExactAux] at h
    | succ r =>
      cases net with
      | nil =>
        simp only [receiveExactAux, Prod.mk.injEq] at h
        obtain ⟨h1, h2, h3⟩ := h
        subst h2
        simp
      | cons e rest =>
        cases e with
        | close =>
          simp only [receiveExactAux, Prod.mk.injEq] at h
          obtain ⟨h1, h2, h3⟩ := h
          subst h2
          simp
        | err =>
          simp only [receiveExactAux, Prod.mk.injEq] at h
          obtain ⟨h1, h2, h3⟩ := h
          subst h2
          simp
        | chunk bs =>
          simp only [receiveExactAux] at h
          by_cases hz : (bs.take (r + 1)).length = 0
          · rw [if_pos hz] at h
            simp only [Prod.mk.injEq] at h
            obtain ⟨h1, h2, h3⟩ := h
            subst h2
            simp
          · rw [if_neg hz] at h
            obtain ⟨h1, h2, h3⟩ := ih _ _ _ _ _ _ h
            exact ⟨h1, by rw [h2], by rw [h3]⟩

/-- A successful frame-body read delivers exactly `fsize` bytes, increments
the frame counter once, adds `fsize` to the byte counter and keeps the
connection flag. -/
theorem tcpFinishFrame_some (fsize : Nat) (rx : TcpReceiver)
    (net : List NetEvent) (out : List Nat) (rx' : TcpReceiver)
    (net' : List NetEvent)
    (h : tcpFinishFrame fsize rx net = (some out, rx', net')) :
    out.length = fsize ∧
    rx'.total_frames_received = rx.total_frames_received + 1 ∧
    rx'.total_bytes_received = rx.total_bytes_received + fsize ∧
    rx'.connected = rx.connected := by
  unfold tcpFinishFrame at h
  rcases hres : rx.receiveExact fsize net with ⟨o, rx1, net1⟩
  rw [hres] at h
  cases o with
  | none => simp at h
  | some buf =>
    simp only [Prod.mk.injEq, Option.some.injEq] at h
    obtain ⟨h1, h2, h3⟩ := h
    subst h1; subst h2
    obtain ⟨g1, g2, g3, g4, g5⟩ :=
      receiveExactAux_some fsize fsize [] rx net buf rx1 net1 le_rfl hres
    simp at g1
    exact ⟨g1, by simp [g3], by simp [g2], by simp [g4]⟩

/-- A failed frame-body read marks the receiver disconnected and leaves the
frame counter untouched. -/
theorem tcpFinishFrame_none (fsize : Nat) (rx : TcpReceiver)
    (net : List NetEvent) (rx' : TcpReceiver) (net' : List NetEvent)
    (h : tcpFinishFrame fsize rx net = (none, rx', net')) :
    rx'.connected = false ∧
    rx'.total_frames_received = rx.total_frames_received := by
  unfold tcpFinishFrame at h
  rcases hres : rx.receiveExact fsize net with ⟨o, rx1, net1⟩
  rw [hres] at h
  cases o with
  | some buf => simp at h
  | none =>
    simp only [Prod.mk.injEq] at h
    obtain ⟨h1, h2, h3⟩ := h
    subst h2
    obtain ⟨g1, g2, g3⟩ := receiveExactAux_none fsize fsize [] rx net rx1 net1 hres
    exact ⟨g1, g2⟩

/-- C1: for every connected receiver and every requested length, the
read-exact loop of `receiveExact` delivers exactly that many bytes on
success, regardless of how the oracle splits the stream; any receive of
zero (peer close) or error aborts, marks the receiver disconnected, and
fails — and `receiveFrame` inherits this: a successful headerless
`receiveFrame` delivers exactly `frame_size` bytes, and a failed
`receiveFrame` leaves the receiver disconnected. -/
theorem tcp_receiveFrame_read_exact (cfg : Config) (rx : TcpReceiver)
    (net : List NetEvent) (hc : rx.connected = true) :
    (∀ size out rx' net',
       rx.receiveExact size net = (some out, rx', net') →
       out.length = size) ∧
    (∀ size rx' net',
       rx.receiveExact size net = (none, rx', net') →
       rx'.connected = false) ∧
    (∀ out rx' net', cfg.has_header = false →
       TcpReceiver.receiveFrame cfg rx net = (some out, rx', net') →
       out.length = cfg.frame_size) ∧
    (∀ rx' net',
       TcpReceiver.receiveFrame cfg rx net = (none, rx', net') →
       rx'.connected = false) := by
  refine ⟨?_, ?_, ?_, ?_⟩
  · intro size out rx' net' h
    have := receiveExactAux_some size size [] rx net out rx' net' le_rfl h
    simpa using this.1
  · intro size rx' net' h
    exact (receiveExactAux_none size size [] rx net rx' net' h).1
  · intro out rx' net' hh h
    unfold TcpReceiver.receiveFrame at h
    rw [hc] at h
    simp only [Bool.true_eq_false, if_false, hh] at h
    exact (tcpFinishFrame_some cfg.frame_size rx net out rx' net' h).1
  · intro rx' net' h
    unfold TcpReceiver.receiveFrame at h
    rw [hc] at h
    simp only [Bool.true_eq_false, if_false] at h
    by_cases hh : cfg.has_header
    · rw [if_pos hh] at h
      rcases hres : rx.receiveExact cfg.header_size net with ⟨o, rx1, net1⟩
      rw [hres] at h
      cases o with
      | none =>
        simp only [Prod.mk.injEq] at h
        obtain ⟨h1, h2, h3⟩ := h
        subst h2
        exact (receiveExactAux_none cfg.header_size cfg.header_size [] rx net
          rx1 net1 hres).1
      | some hdr =>
        exact (tcpFinishFrame_none _ rx1 net1 rx' net' h).1
    · rw [if_neg hh] at h
      exact (tcpFinishFrame_none cfg.frame_size rx net rx' net' h).1

/-- An 8-by-2 configuration without a frame-size header (`frame_size = 4`),
used as concrete input by the witnesses. -/
def cfgNoHeader : Config := ⟨8, 2, 65535, false, 4, false, true, true, false⟩

/-- The same geometry with `has_header = true` and a 4-byte header. -/
def cfgHeader : Config := ⟨8, 2, 65535, true, 4, false, true, true, false⟩

/-- A connected TCP receiver with zeroed counters, socket handle 3. -/
def rxConn : TcpReceiver := ⟨some 3, true, 0, 0⟩

/-- A bound UDP receiver with zeroed counters, socket handle 7. -/
def ruBound : UdpReceiver := ⟨some 7, true, 0, 0, 0⟩

/-- A stream oracle splitting a 4-byte payload as 2 + 3 bytes. -/
def netSplit : List NetEvent :=
  [NetEvent.chunk [1, 2], NetEvent.chunk [3, 4, 5]]

/-- Witness for C1 at a concrete connected receiver and oracle. -/
theorem tcp_receiveFrame_read_exact_witness :
    rxConn.connected = true ∧
    ((∀ size out rx' net',
        rxConn.receiveExact size netSplit = (some out, rx', net') →
        out.length = size) ∧
     (∀ size rx' net',
        rxConn.receiveExact size netSplit = (none, rx', net') →
        rx'.connected = false) ∧
     (∀ out rx' net', cfgNoHeader.has_header = false →
        TcpReceiver.receiveFrame cfgNoHeader rxConn netSplit
          = (some out, rx', net') →
        out.length = cfgNoHeader.frame_size) ∧
     (∀ rx' net',
        TcpReceiver.receiveFrame cfgNoHeader rxConn netSplit
          = (none, rx', net') →
        rx'.connected = false)) :=
  ⟨by decide,
   tcp_receiveFrame_read_exact cfgNoHeader rxConn netSplit (by decide)⟩

/-- C4 counterexample: a `receiveFrame` that fails mid-frame (one byte
arrives, then a receive error) still increments the byte counter by the
partial byte already read — the byte counter is not incremented only by
successful calls. -/
theorem tcp_counters_cex :
    (TcpReceiver.receiveFrame cfgNoHeader rxConn
        [NetEvent.chunk [9], NetEvent.err]).1 = none ∧
    (TcpReceiver.receiveFrame cfgNoHeader rxConn
        [NetEvent.chunk [9], NetEvent.err]).2.1.total_bytes_received
      ≠ rxConn.total_bytes_received := by
  decide

/-- C4 amended: the frame counter is incremented only by successful
`receiveFrame` calls (exactly once per success, never on failure), and a
successful headerless `receiveFrame` adds exactly `frame_size` to the byte
counter; a failed call, however, may still grow the byte counter by the
partial bytes its receives delivered before the abort. -/
theorem tcp_counters_amended (cfg : Config) (rx : TcpReceiver)
    (net : List NetEvent) (hc : rx.connected = true) :
    (∀ rx' net',
       TcpReceiver.receiveFrame cfg rx net = (none, rx', net') →
       rx'.total_frames_received = rx.total_frames_received) ∧
    (∀ out rx' net',
       TcpReceiver.receiveFrame cfg rx net = (some out, rx', net') →
       rx'.total_frames_received = rx.total_frames_received + 1) ∧
    (∀ out rx' net', cfg.has_header = false →
       TcpReceiver.receiveFrame cfg rx net = (some out, rx', net') →
       rx'.total_bytes_received = rx.total_bytes_received + cfg.frame_size)
    := by
  refine ⟨?_, ?_, ?_⟩
  · intro rx' net' h
    unfold TcpReceiver.receiveFrame at h
    rw [hc] at h
    simp only [Bool.true_eq_false, if_false] at h
    by_cases hh : cfg.has_header
    · rw [if_pos hh] at h
      rcases hres : rx.receiveExact cfg.header_size net with ⟨o, rx1, net1⟩
      rw [hres] at h
      cases o with
      | none =>
        simp only [Prod.mk.injEq] at h
        obtain ⟨h1, h2, h3⟩ := h
        subst h2
        exact (receiveExactAux_none cfg.header_size cfg.header_size [] rx net
          rx1 net1 hres).2.1
      | some hdr =>
        have g := (tcpFinishFrame_none _ rx1 net1 rx' net' h).2
        have g2 := (receiveExactAux_some cfg.header_size cfg.header_size []
          rx net hdr rx1 net1 le_rfl hres).2.2.1
        rw [g, g2]
    · rw [if_neg hh] at h
      exact (tcpFinishFrame_none cfg.frame_size rx net rx' net' h).2
  · intro out rx' net' h
    unfold TcpReceiver.receiveFrame at h
    rw [hc] at h
    simp only [Bool.true_eq_false, if_false] at h
    by_cases hh : cfg.has_header
    · rw [if_pos hh] at h
      rcases hres : rx.receiveExact cfg.header_size net with ⟨o, rx1, net1⟩
      rw [hres] at h
      cases o with
      | none => simp at h
      | some hdr =>
        have g := (tcpFinishFrame_some _ rx1 net1 out rx' net' h).2.1
        have g2 := (receiveExactAux_some cfg.header_size cfg.header_size []
          rx net hdr rx1 net1 le_rfl hres).2.2.1
        rw [g, g2]
    · rw [if_neg hh] at h
      exact (tcpFinishFrame_some cfg.frame_size rx net out rx' net' h).2.1
  · intro out rx' net' hh h
    unfold TcpReceiver.receiveFrame at h
    rw [hc] at h
    simp only [Bool.true_eq_false, if_false, hh] at h
    exact (tcpFinishFrame_some cfg.frame_size rx net out rx' net' h).2.2.1

/-- Witness for the amended C4 at a concrete run. -/
theorem tcp_counters_amended_witness :
    rxConn.connected = true ∧
    ((∀ rx' net',
        TcpReceiver.receiveFrame cfgNoHeader rxConn netSplit
          = (none, rx', net') →
        rx'.total_frames_received = rxConn.total_frames_received) ∧
     (∀ out rx' net',
        TcpReceiver.receiveFrame cfgNoHeader rxConn netSplit
          = (some out, rx', net') →
        rx'.total_frames_received = rxConn.total_frames_received + 1) ∧
     (∀ out rx' net', cfgNoHeader.has_header = false →
        TcpReceiver.receiveFrame cfgNoHeader rxConn netSplit
          = (some out, rx', net') →
        rx'.total_bytes_received
          = rxConn.total_bytes_received + cfgNoHeader.frame_size)) :=
  ⟨by decide, tcp_counters_amended cfgNoHeader rxConn netSplit (by decide)⟩

/-- C2: with a header-declaring configuration, `receiveFrame` reads exactly
`header_size` bytes, interprets them little-endian, and proceeds — without
raising an error — to read a frame whose size is the header value exactly
when it lies strictly between 0 and 100 000 000, and the statically
configured `frame_size` otherwise. -/
theorem tcp_header_clamp (cfg : Config) (rx : TcpReceiver)
    (net : List NetEvent) (hdr : List Nat) (rx' : TcpReceiver)
    (net' : List NetEvent) (hc : rx.connected = true)
    (hh : cfg.has_header = true)
    (hread : rx.receiveExact cfg.header_size net = (some hdr, rx', net')) :
    hdr.length = cfg.header_size ∧
    TcpReceiver.receiveFrame cfg rx net
      = tcpFinishFrame (chooseFrameSize cfg (leVal hdr)) rx' net' ∧
    (leVal hdr = 0 → chooseFrameSize cfg (leVal hdr) = cfg.frame_size) ∧
    (100000000 ≤ leVal hdr →
      chooseFrameSize cfg (leVal hdr) = cfg.frame_size) ∧
    (0 < leVal hdr → leVal hdr < 100000000 →
      chooseFrameSize cfg (leVal hdr) = leVal hdr) := by
  refine ⟨?_, ?_, ?_, ?_, ?_⟩
  · have := (receiveExactAux_some cfg.header_size cfg.header_size [] rx net
      hdr rx' net' le_rfl hread).1
    simpa using this
  · unfold TcpReceiver.receiveFrame
    rw [hc]
    simp only [Bool.true_eq_false, if_false, hh, if_pos]
    rw [hread]
  · intro h0
    unfold chooseFrameSize
    rw [h0]
    simp
  · intro hbig
    unfold chooseFrameSize
    rw [if_neg (by omega)]
  · intro hpos hsmall
    unfold chooseFrameSize
    rw [if_pos ⟨hpos, hsmall⟩]

/-- A stream oracle for the header configuration: 4 header bytes declaring
length 2, then 3 payload bytes. -/
def netHdr : List NetEvent :=
  [NetEvent.chunk [2, 0, 0, 0], NetEvent.chunk [7, 8, 9]]

/-- Witness for C2 at a concrete header run. -/
theorem tcp_header_clamp_witness :
    rxConn.connected = true ∧ cfgHeader.has_header = true ∧
    rxConn.receiveExact cfgHeader.header_size netHdr
      = (some [2, 0, 0, 0], ⟨some 3, true, 4, 0⟩,
         [NetEvent.chunk [7, 8, 9]]) ∧
    (([2, 0, 0, 0] : List Nat).length = cfgHeader.header_size ∧
     TcpReceiver.receiveFrame cfgHeader rxConn netHdr
       = tcpFinishFrame (chooseFrameSize cfgHeader (leVal [2, 0, 0, 0]))
           ⟨some 3, true, 4, 0⟩ [NetEvent.chunk [7, 8, 9]] ∧
     (leVal [2, 0, 0, 0] = 0 →
       chooseFrameSize cfgHeader (leVal [2, 0, 0, 0])
         = cfgHeader.frame_size) ∧
     (100000000 ≤ leVal [2, 0, 0, 0] →
       chooseFrameSize cfgHeader (leVal [2, 0, 0, 0])
         = cfgHeader.frame_size) ∧
     (0 < leVal [2, 0, 0, 0] → leVal [2, 0, 0, 0] < 100000000 →
       chooseFrameSize cfgHeader (leVal [2, 0, 0, 0])
         = leVal [2, 0, 0, 0])) :=
  ⟨by decide, by decide, by decide,
   tcp_header_clamp cfgHeader rxConn netHdr [2, 0, 0, 0]
     ⟨some 3, true, 4, 0⟩ [NetEvent.chunk [7, 8, 9]]
     (by decide) (by decide) (by decide)⟩

/-- C6: calling `receiveFrame` on a disconnected TCP receiver or an unbound
UDP receiver fails immediately, leaving the receiver state and the oracle
(no socket I/O is attempted) unchanged. -/
theorem receiveFrame_disconnected_reject (cfg : Config) (rx : TcpReceiver)
    (ru : UdpReceiver) (net : List NetEvent) (unet : List UdpEvent)
    (h1 : rx.connected = false) (h2 : ru.bound = false) :
    TcpReceiver.receiveFrame cfg rx net = (none, rx, net) ∧
    UdpReceiver.receiveFrame cfg ru unet = (none, ru, unet) := by
  constructor
  · unfold TcpReceiver.receiveFrame
    rw [h1]
    simp
  · unfold UdpReceiver.receiveFrame
    rw [h2]
    simp

/-- Witness for C6 on fresh (never-connected) receivers. -/
theorem receiveFrame_disconnected_reject_witness :
    (⟨none, false, 0, 0⟩ : TcpReceiver).connected = false ∧
    (⟨none, false, 0, 0, 0⟩ : UdpReceiver).bound = false ∧
    (TcpReceiver.receiveFrame cfgNoHeader ⟨none, false, 0, 0⟩ netSplit
       = (none, ⟨none, false, 0, 0⟩, netSplit) ∧
     UdpReceiver.receiveFrame cfgNoHeader ⟨none, false, 0, 0, 0⟩ []
       = (none, ⟨none, false, 0, 0, 0⟩, [])) :=
  ⟨by decide, by decide,
   receiveFrame_disconnected_reject cfgNoHeader ⟨none, false, 0, 0⟩
     ⟨none, false, 0, 0, 0⟩ netSplit [] (by decide) (by decide)⟩

/-- C7: `disconnect` is idempotent for both receivers — a second call
releases no handle and changes nothing, a call on a receiver that never had
a socket releases nothing, and after any call the receiver is
disconnected/unbound with, for UDP, the accumulation offset reset to 0. -/
theorem disconnect_idempotent (rx : TcpReceiver) (ru : UdpReceiver) :
    TcpReceiver.disconnect (TcpReceiver.disconnect rx).1
      = ((TcpReceiver.disconnect rx).1, []) ∧
    (rx.socket = none → (TcpReceiver.disconnect rx).2 = []) ∧
    (TcpReceiver.disconnect rx).1.connected = false ∧
    UdpReceiver.disconnect (UdpReceiver.disconnect ru).1
      = ((UdpReceiver.disconnect ru).1, []) ∧
    (ru.socket = none → (UdpReceiver.disconnect ru).2 = []) ∧
    (UdpReceiver.disconnect ru).1.bound = false ∧
    (UdpReceiver.disconnect ru).1.accumulated_bytes = 0 := by
  rcases rx with ⟨s, c, b, f⟩
  rcases ru with ⟨s2, b2, a2, bb2, ff2⟩
  cases s <;> cases s2 <;>
    simp [TcpReceiver.disconnect, UdpReceiver.disconnect]

/-- Witness for C7 at concrete receivers holding sockets. -/
theorem disconnect_idempotent_witness :
    TcpReceiver.disconnect (TcpReceiver.disconnect rxConn).1
      = ((TcpReceiver.disconnect rxConn).1, []) ∧
    (rxConn.socket = none → (TcpReceiver.disconnect rxConn).2 = []) ∧
    (TcpReceiver.disconnect rxConn).1.connected = false ∧
    UdpReceiver.disconnect (UdpReceiver.disconnect ruBound).1
      = ((UdpReceiver.disconnect ruBound).1, []) ∧
    (ruBound.socket = none → (UdpReceiver.disconnect ruBound).2 = []) ∧
    (UdpReceiver.disconnect ruBound).1.bound = false ∧
    (UdpReceiver.disconnect ruBound).1.accumulated_bytes = 0 :=
  disconnect_idempotent rxConn ruBound

/-- C8: `connect` on an already-connected TCP receiver, and on an already
bound UDP receiver, is a no-op success: whatever the environment would do,
the state is returned unchanged and no socket is created. -/
theorem connect_noop_when_connected (rx : TcpReceiver) (ru : UdpReceiver)
    (env env2 : ConnEnv) (h1 : rx.connected = true) (h2 : ru.bound = true) :
    TcpReceiver.connect rx env = (rx, true) ∧
    UdpReceiver.connect ru env2 = (ru, true) := by
  constructor
  · unfold TcpReceiver.connect
    rw [h1]
    simp
  · unfold UdpReceiver.connect
    rw [h2]
    simp

/-- Witness for C8 at concrete connected/bound receivers. -/
theorem connect_noop_when_connected_witness :
    rxConn.connected = true ∧ ruBound.bound = true ∧
    (TcpReceiver.connect rxConn ConnEnv.sockFail = (rxConn, true) ∧
     UdpReceiver.connect ruBound (ConnEnv.ok 11) = (ruBound, true)) :=
  ⟨by decide, by decide,
   connect_noop_when_connected rxConn ruBound ConnEnv.sockFail
     (ConnEnv.ok 11) (by decide) (by decide)⟩

/-- C10 counterexample: `connect` on an already-connected receiver with
nonzero counters returns success yet does not reset the statistics. -/
theorem connect_resets_stats_cex :
    (TcpReceiver.connect ⟨some 3, true, 10, 5⟩ (ConnEnv.ok 9)).2 = true ∧
    (TcpReceiver.connect
        ⟨some 3, true, 10, 5⟩ (ConnEnv.ok 9)).1.total_frames_received
      ≠ 0 := by
  decide

/-- C10 amended: every `connect` call that succeeds from the disconnected
(TCP) or unbound (UDP) state resets the statistics counters to zero — and,
for the UDP receiver, the accumulation offset; the no-op success on an
already-connected receiver leaves them unchanged. -/
theorem connect_resets_stats_amended (rx : TcpReceiver) (ru : UdpReceiver)
    (env env2 : ConnEnv) (h1 : rx.connected = false)
    (h2 : ru.bound = false) :
    (∀ rx', TcpReceiver.connect rx env = (rx', true) →
       rx'.total_bytes_received = 0 ∧ rx'.total_frames_received = 0) ∧
    (∀ ru', UdpReceiver.connect ru env2 = (ru', true) →
       ru'.total_bytes_received = 0 ∧ ru'.total_frames_received = 0 ∧
       ru'.accumulated_bytes = 0) := by
  constructor
  · intro rx' h
    unfold TcpReceiver.connect at h
    rw [h1] at h
    simp only [Bool.false_eq_true, if_false] at h
    cases env with
    | sockFail => simp at h
    | failAfter hd => simp at h
    | ok hd =>
      simp only [Prod.mk.injEq] at h
      rw [← h.1]
      exact ⟨rfl, rfl⟩
  · intro ru' h
    unfold UdpReceiver.connect at h
    rw [h2] at h
    simp only [Bool.false_eq_true, if_false] at h
    cases env2 with
    | sockFail => simp at h
    | failAfter hd => simp at h
    | ok hd =>
      simp only [Prod.mk.injEq] at h
      rw [← h.1]
      exact ⟨rfl, rfl, rfl⟩

/-- Witness for the amended C10 at fresh receivers and a succeeding
environment. -/
theorem connect_resets_stats_amended_witness :
    (⟨none, false, 4, 2⟩ : TcpReceiver).connected = false ∧
    (⟨none, false, 3, 4, 2⟩ : UdpReceiver).bound = false ∧
    ((∀ rx', TcpReceiver.connect ⟨none, false, 4, 2⟩ (ConnEnv.ok 9)
         = (rx', true) →
       rx'.total_bytes_received = 0 ∧ rx'.total_frames_received = 0) ∧
     (∀ ru', UdpReceiver.connect ⟨none, false, 3, 4, 2⟩ (ConnEnv.ok 9)
         = (ru', true) →
       ru'.total_bytes_received = 0 ∧ ru'.total_frames_received = 0 ∧
       ru'.accumulated_bytes = 0)) :=
  ⟨by decide, by decide,
   connect_resets_stats_amended ⟨none, false, 4, 2⟩ ⟨none, false, 3, 4, 2⟩
     (ConnEnv.ok 9) (ConnEnv.ok 9) (by decide) (by decide)⟩

/-- Invariant of the UDP accumulation loop: with the written prefix equal to
the accumulation offset and the offset within the frame, every copy stays
within the resized output buffer, so a successful exit returns a buffer of
exactly `fsize` bytes with the offset equal to `fsize`. -/
theorem udpLoop_some_length (cfg : Config) (fsize : Nat) :
    ∀ (net : List UdpEvent) (acc : List Nat) (rx : UdpReceiver)
      (out : List Nat) (rx' : UdpReceiver) (net' : List UdpEvent),
    acc.length = rx.accumulated_bytes →
    rx.accumulated_bytes ≤ fsize →
    udpLoop cfg fsize net acc rx = (some out, rx', net') →
    out.length = fsize ∧ rx'.accumulated_bytes = fsize := by
  intro net
  induction net with
  | nil =>
    intro acc rx out rx' net' hlen hle h
    simp only [udpLoop] at h
    by_cases hcond : rx.accumulated_bytes < fsize
    · rw [if_pos hcond] at h
      simp at h
    · rw [if_neg hcond] at h
      simp only [Prod.mk.injEq, Option.some.injEq] at h
      obtain ⟨h1, h2, h3⟩ := h
      subst h1; subst h2
      exact ⟨by omega, by simp only []; omega⟩
  | cons e rest ih =>
    intro acc rx out rx' net' hlen hle h
    cases e with
    | err =>
      simp only [udpLoop] at h
      by_cases hcond : rx.accumulated_bytes < fsize
      · rw [if_pos hcond] at h
        simp at h
      · rw [if_neg hcond] at h
        simp only [Prod.mk.injEq, Option.some.injEq] at h
        obtain ⟨h1, h2, h3⟩ := h
        subst h1; subst h2
        exact ⟨by omega, by simp only []; omega⟩
    | dgram bytes =>
      simp only [udpLoop] at h
      by_cases hcond : rx.accumulated_bytes < fsize
      · rw [if_pos hcond] at h
        by_cases hz : (bytes.take cfg.udp_packet_size).length = 0
        · rw [if_pos hz] at h
          simp at h
        · rw [if_neg hz] at h
          refine ih _ _ _ _ _ ?_ ?_ h
          · simp only [List.length_append, List.length_take, hlen]
            omega
          · simp only []
            omega
      · rw [if_neg hcond] at h
        simp only [Prod.mk.injEq, Option.some.injEq] at h
        obtain ⟨h1, h2, h3⟩ := h
        subst h1; subst h2
        exact ⟨by omega, by simp only []; omega⟩

/-- C9: in the UDP accumulation loop every copy is bounded by the remaining
need of the frame, so on any loop entry whose written prefix matches the
offset and fits the frame, a successful exit yields a buffer of exactly
`frame_size` bytes — in particular a successful `receiveFrame` returns a
buffer whose length is exactly `getFrameSize()`. -/
theorem udp_copy_in_bounds (cfg : Config) (rx : UdpReceiver)
    (net : List UdpEvent) (hb : rx.bound = true) :
    (∀ (n : List UdpEvent) (acc : List Nat) (r : UdpReceiver)
       (out : List Nat) (r' : UdpReceiver) (net'' : List UdpEvent),
       acc.length = r.accumulated_bytes →
       r.accumulated_bytes ≤ cfg.frame_size →
       udpLoop cfg cfg.frame_size n acc r = (some out, r', net'') →
       out.length = cfg.frame_size ∧
       r'.accumulated_bytes = cfg.frame_size) ∧
    (∀ (out : List Nat) (rx' : UdpReceiver) (net' : List UdpEvent),
       UdpReceiver.receiveFrame cfg rx net = (some out, rx', net') →
       out.length = UdpReceiver.getFrameSize cfg) := by
  constructor
  · intro n acc r out r' net'' hlen hle h
    exact udpLoop_some_length cfg cfg.frame_size n acc r out r' net'' hlen
      hle h
  · intro out rx' net' h
    unfold UdpReceiver.receiveFrame at h
    rw [hb] at h
    simp only [Bool.true_eq_false, if_false] at h
    exact (udpLoop_some_length cfg cfg.frame_size net _ _ out rx' net' rfl
      (Nat.zero_le _) h).1

/-- Witness for C9 at a concrete bound receiver and datagram sequence. -/
theorem udp_copy_in_bounds_witness :
    ruBound.bound = true ∧
    ((∀ (n : List UdpEvent) (acc : List Nat) (r : UdpReceiver)
        (out : List Nat) (r' : UdpReceiver) (net'' : List UdpEvent),
        acc.length = r.accumulated_bytes →
        r.accumulated_bytes ≤ cfgNoHeader.frame_size →
        udpLoop cfgNoHeader cfgNoHeader.frame_size n acc r
          = (some out, r', net'') →
        out.length = cfgNoHeader.frame_size ∧
        r'.accumulated_bytes = cfgNoHeader.frame_size) ∧
     (∀ (out : List Nat) (rx' : UdpReceiver) (net' : List UdpEvent),
        UdpReceiver.receiveFrame cfgNoHeader ruBound
            [UdpEvent.dgram [1, 2], UdpEvent.dgram [3, 4, 5]]
          = (some out, rx', net') →
        out.length = UdpReceiver.getFrameSize cfgNoHeader)) :=
  ⟨by decide,
   udp_copy_in_bounds cfgNoHeader ruBound
     [UdpEvent.dgram [1, 2], UdpEvent.dgram [3, 4, 5]] (by decide)⟩

/-- Reassembly of the UDP accumulation loop: feeding it datagrams
`ds` (each nonempty and no larger than the scratch buffer) that minimally
cover the remaining frame need makes it consume exactly `ds`, return the
buffer extended by the covering prefix of their concatenation (any overrun
of the final datagram discarded), count every received byte, and increment
the frame counter once. -/
theorem udpLoop_cover (cfg : Config) (fsize : Nat) :
    ∀ (ds : List (List Nat)) (rest : List UdpEvent) (acc : List Nat)
      (rx : UdpReceiver),
    acc.length = rx.accumulated_bytes →
    rx.accumulated_bytes ≤ fsize →
    (∀ d ∈ ds, d ≠ [] ∧ d.length ≤ cfg.udp_packet_size) →
    fsize ≤ rx.accumulated_bytes + (ds.flatten).length →
    (∀ j, j < ds.length →
      rx.accumulated_bytes + ((ds.take j).flatten).length < fsize) →
    udpLoop cfg fsize (ds.map UdpEvent.dgram ++ rest) acc rx
      = (some (acc ++ (ds.flatten).take (fsize - rx.accumulated_bytes)),
         { rx with
             accumulated_bytes := fsize
             total_bytes_received :=
               rx.total_bytes_received + (ds.flatten).length
             total_frames_received := rx.total_frames_received + 1 },
         rest) := by
  intro ds
  induction ds with
  | nil =>
    intro rest acc rx hlen hle hds hcov hmin
    have heq : rx.accumulated_bytes = fsize := by
      simp only [List.flatten_nil, List.length_nil] at hcov
      omega
    rcases rx with ⟨s, b, a, tb, tf⟩
    simp only [] at heq
    subst heq
    cases rest with
    | nil =>
      simp [udpLoop]
    | cons e tl =>
      cases e with
      | dgram bytes => simp [udpLoop]
      | err => simp [udpLoop]
  | cons d ds ih =>
    intro rest acc rx hlen hle hds hcov hmin
    have hd := hds d (List.mem_cons_self d ds)
    have hdne : d.length ≠ 0 := fun hc => hd.1 (List.eq_nil_of_length_eq_zero hc)
    have h0 : rx.accumulated_bytes < fsize := by
      have := hmin 0 (by simp)
      simpa using this
    have htake : d.take cfg.udp_packet_size = d :=
      List.take_of_length_le hd.2
    have hcov' : fsize ≤ rx.accumulated_bytes + (d.length + ds.flatten.length) := by
      simpa [List.flatten_cons] using hcov
    simp only [List.map_cons, List.cons_append, udpLoop, if_pos h0, htake,
      if_neg hdne, List.append_eq]
    by_cases hcase : d.length ≤ fsize - rx.accumulated_bytes
    · have hcopy : min (fsize - rx.accumulated_bytes) d.length = d.length :=
        Nat.min_eq_right hcase
      rw [hcopy, List.take_length]
      have hIH := ih rest (acc ++ d)
        ⟨rx.socket, rx.bound, rx.accumulated_bytes + d.length,
         rx.total_bytes_received + d.length, rx.total_frames_received⟩
        (by
          show (acc ++ d).length = rx.accumulated_bytes + d.length
          simp [hlen])
        (by
          show rx.accumulated_bytes + d.length ≤ fsize
          omega)
        (fun x hx => hds x (List.mem_cons_of_mem d hx))
        (by
          show fsize ≤ rx.accumulated_bytes + d.length + ds.flatten.length
          omega)
        (fun j hj => by
          have := hmin (j + 1) (by simpa using Nat.succ_lt_succ hj)
          simp only [List.take_succ_cons, List.flatten_cons,
            List.length_append] at this
          show rx.accumulated_bytes + d.length
            + ((List.take j ds).flatten).length < fsize
          omega)
      rw [hIH]
      have hsub : fsize - (rx.accumulated_bytes + d.length)
          = fsize - rx.accumulated_bytes - d.length := by omega
      simp only [Prod.mk.injEq, Option.some.injEq, UdpReceiver.mk.injEq,
        List.flatten_cons, List.length_append, true_and, and_true]
      refine ⟨?_, by omega⟩
      rw [List.take_append_eq_append_take, List.take_of_length_le hcase,
        List.append_assoc, hsub]
    · have hds_nil : ds = [] := by
        cases ds with
        | nil => rfl
        | cons d2 ds2 =>
          have := hmin 1 (by simp)
          simp only [List.take_succ_cons, List.take_zero, List.flatten_cons,
            List.flatten_nil, List.append_nil, List.length_append] at this
          omega
      subst hds_nil
      have hcopy : min (fsize - rx.accumulated_bytes) d.length
          = fsize - rx.accumulated_bytes :=
        Nat.min_eq_left (by omega)
      rw [hcopy]
      have hfull : rx.accumulated_bytes + (fsize - rx.accumulated_bytes)
          = fsize := by omega
      rw [hfull]
      simp only [List.map_nil, List.nil_append, List.flatten_cons,
        List.flatten_nil, List.append_nil]
      cases rest with
      | nil =>
        simp [udpLoop, if_neg (Nat.lt_irrefl fsize)]
      | cons e tl =>
        cases e with
        | dgram bytes =>
          simp [udpLoop, if_neg (Nat.lt_irrefl fsize)]
        | err =>
          simp [udpLoop, if_neg (Nat.lt_irrefl fsize)]

/-- C3: on a bound receiver, `receiveFrame` resets the accumulation offset,
then reassembles exactly one frame from any sequence of datagrams whose
concatenation covers the frame (arbitrary chunk sizes, the final chunk
possibly overrunning): the output is exactly the first `frame_size` bytes of
the concatenation (overflow discarded), every received byte — including the
discarded tail — is added to the byte counter, and the frame counter is
incremented once. -/
theorem udp_reassembly (cfg : Config) (rx : UdpReceiver)
    (ds : List (List Nat)) (rest : List UdpEvent) (hb : rx.bound = true)
    (hds : ∀ d ∈ ds, d ≠ [] ∧ d.length ≤ cfg.udp_packet_size)
    (hcov : cfg.frame_size ≤ (ds.flatten).length)
    (hmin : ∀ j, j < ds.length →
      ((ds.take j).flatten).length < cfg.frame_size) :
    UdpReceiver.receiveFrame cfg rx (ds.map UdpEvent.dgram ++ rest)
      = (some ((ds.flatten).take cfg.frame_size),
         { rx with
             accumulated_bytes := cfg.frame_size
             total_bytes_received :=
               rx.total_bytes_received + (ds.flatten).length
             total_frames_received := rx.total_frames_received + 1 },
         rest) := by
  unfold UdpReceiver.receiveFrame
  rw [hb]
  simp only [Bool.true_eq_false, if_false]
  have hrun := udpLoop_cover cfg cfg.frame_size ds rest []
    ⟨rx.socket, true, 0, rx.total_bytes_received, rx.total_frames_received⟩
    rfl (Nat.zero_le _) hds
    (by
      show cfg.frame_size ≤ 0 + ds.flatten.length
      omega)
    (fun j hj => by
      show 0 + ((ds.take j).flatten).length < cfg.frame_size
      have := hmin j hj
      omega)
  rw [hrun]
  simp

/-- Witness for C3: a 4-byte frame reassembled from datagrams of sizes 2
and 3, the final byte discarded. -/
theorem udp_reassembly_witness :
    ruBound.bound = true ∧
    (∀ d ∈ [[1, 2], [3, 4, 5]], d ≠ ([] : List Nat) ∧
       d.length ≤ cfgNoHeader.udp_packet_size) ∧
    cfgNoHeader.frame_size ≤ (([[1, 2], [3, 4, 5]] : List (List Nat)).flatten).length ∧
    (∀ j, j < ([[1, 2], [3, 4, 5]] : List (List Nat)).length →
      ((([[1, 2], [3, 4, 5]] : List (List Nat)).take j).flatten).length
        < cfgNoHeader.frame_size) ∧
    UdpReceiver.receiveFrame cfgNoHeader ruBound
        (([[1, 2], [3, 4, 5]] : List (List Nat)).map UdpEvent.dgram ++ [])
      = (some ((([[1, 2], [3, 4, 5]] : List (List Nat)).flatten).take
            cfgNoHeader.frame_size),
         { ruBound with
             accumulated_bytes := cfgNoHeader.frame_size
             total_bytes_received := ruBound.total_bytes_received
               + (([[1, 2], [3, 4, 5]] : List (List Nat)).flatten).length
             total_frames_received := ruBound.total_frames_received + 1 },
         []) :=
  ⟨by decide, by decide, by decide, by decide,
   udp_reassembly cfgNoHeader ruBound [[1, 2], [3, 4, 5]] []
     (by decide) (by decide) (by decide) (by decide)⟩

/-- The pixel offset of a bit within its byte is below 8. -/
theorem bitPixelOffset_lt (m : Bool) (i : Nat) (h : i < 8) :
    bitPixelOffset m i < 8 := by
  unfold bitPixelOffset
  split <;> omega

/-- The bit-to-offset map is injective on bit indices 0–7. -/
theorem bitPixelOffset_inj (m : Bool) {i j : Nat} (hi : i < 8) (hj : j < 8)
    (h : bitPixelOffset m i = bitPixelOffset m j) : i = j := by
  unfold bitPixelOffset at h
  cases m <;> simp at h <;> omega

/-- The map from (byte index, bit index) to the linear pixel index
`8 * byteIdx + bitPixelOffset` is a bijection from the pairs of one channel
onto the channel's pixel-index range. -/
theorem pixelIndex_bijOn (m : Bool) (B : Nat) :
    Set.BijOn (fun bi : Nat × Nat => 8 * bi.1 + bitPixelOffset m bi.2)
      { bi : Nat × Nat | bi.1 < B ∧ bi.2 < 8 }
      { p : Nat | p < 8 * B } := by
  refine ⟨?_, ?_, ?_⟩
  · rintro ⟨b, i⟩ ⟨hb, hi⟩
    have ho := bitPixelOffset_lt m i hi
    show 8 * b + bitPixelOffset m i < 8 * B
    omega
  · rintro ⟨b, i⟩ ⟨hb, hi⟩ ⟨b2, i2⟩ ⟨hb2, hi2⟩ heq
    have hi' : i < 8 := hi
    have hi2' : i2 < 8 := hi2
    simp only [] at heq
    have ho := bitPixelOffset_lt m i hi'
    have ho2 := bitPixelOffset_lt m i2 hi2'
    have hbb : b = b2 := by omega
    have hoo : bitPixelOffset m i = bitPixelOffset m i2 := by omega
    have hii := bitPixelOffset_inj m hi' hi2' hoo
    rw [hbb, hii]
  · intro p hp
    have hp' : p < 8 * B := hp
    cases m with
    | false =>
      refine ⟨(p / 8, p % 8), ⟨by omega, by omega⟩, ?_⟩
      show 8 * (p / 8) + bitPixelOffset false (p % 8) = p
      simp only [bitPixelOffset]
      simp
      omega
    | true =>
      refine ⟨(p / 8, 7 - p % 8), ⟨by omega, by omega⟩, ?_⟩
      show 8 * (p / 8) + bitPixelOffset true (7 - p % 8) = p
      simp only [bitPixelOffset]
      simp
      omega

/-- Row-major scan: `p ↦ (p % W, p / W)` is a bijection from the pixel-index
range onto the W-by-H grid. -/
theorem divmod_row_bijOn (W H : Nat) :
    Set.BijOn (fun p : Nat => (p % W, p / W))
      { p : Nat | p < W * H }
      { xy : Nat × Nat | xy.1 < W ∧ xy.2 < H } := by
  refine ⟨?_, ?_, ?_⟩
  · intro p hp
    have hp' : p < W * H := hp
    have hW : 0 < W := by
      rcases Nat.eq_zero_or_pos W with h0 | h0
      · subst h0
        simp at hp'
      · exact h0
    refine ⟨Nat.mod_lt _ hW, ?_⟩
    show p / W < H
    rw [Nat.div_lt_iff_lt_mul hW]
    rw [Nat.mul_comm]
    exact hp'
  · intro p hp p2 hp2 heq
    simp only [Prod.mk.injEq] at heq
    calc p = W * (p / W) + p % W := (Nat.div_add_mod p W).symm
      _ = W * (p2 / W) + p2 % W := by rw [heq.1, heq.2]
      _ = p2 := Nat.div_add_mod p2 W
  · rintro ⟨x, y⟩ ⟨hx, hy⟩
    have hx' : x < W := hx
    have hy' : y < H := hy
    have hW : 0 < W := by omega
    refine ⟨W * y + x, ?_, ?_⟩
    · show W * y + x < W * H
      have h1 : W * y + x < W * (y + 1) := by
        rw [Nat.mul_succ]
        omega
      have h2 : W * (y + 1) ≤ W * H := Nat.mul_le_mul_left W hy'
      omega
    · show ((W * y + x) % W, (W * y + x) / W) = (x, y)
      rw [Nat.mul_add_mod, Nat.mod_eq_of_lt hx',
        Nat.mul_add_div hW, Nat.div_eq_of_lt hx']
      simp

/-- Column-major scan: `p ↦ (p / H, p % H)` is a bijection from the
pixel-index range onto the W-by-H grid. -/
theorem divmod_col_bijOn (W H : Nat) :
    Set.BijOn (fun p : Nat => (p / H, p % H))
      { p : Nat | p < W * H }
      { xy : Nat × Nat | xy.1 < W ∧ xy.2 < H } := by
  refine ⟨?_, ?_, ?_⟩
  · intro p hp
    have hp' : p < W * H := hp
    have hH : 0 < H := by
      rcases Nat.eq_zero_or_pos H with h0 | h0
      · subst h0
        simp at hp'
      · exact h0
    refine ⟨?_, Nat.mod_lt _ hH⟩
    show p / H < W
    rw [Nat.div_lt_iff_lt_mul hH]
    exact hp'
  · intro p hp p2 hp2 heq
    simp only [Prod.mk.injEq] at heq
    calc p = H * (p / H) + p % H := (Nat.div_add_mod p H).symm
      _ = H * (p2 / H) + p2 % H := by rw [heq.1, heq.2]
      _ = p2 := Nat.div_add_mod p2 H
  · rintro ⟨x, y⟩ ⟨hx, hy⟩
    have hx' : x < W := hx
    have hy' : y < H := hy
    have hH : 0 < H := by omega
    refine ⟨H * x + y, ?_, ?_⟩
    · show H * x + y < W * H
      have h1 : H * x + y < H * (x + 1) := by
        rw [Nat.mul_succ]
        omega
      have h2 : H * (x + 1) ≤ H * W := Nat.mul_le_mul_left H hx'
      rw [Nat.mul_comm W H]
      omega
    · show ((H * x + y) / H, (H * x + y) % H) = (x, y)
      rw [Nat.mul_add_mod, Nat.mod_eq_of_lt hy',
        Nat.mul_add_div hH, Nat.div_eq_of_lt hy']
      simp

/-- C5: for any geometry with `width * height` divisible by 8 and any
combination of the layout flags, the decoder's mapping from (byte index,
bit index) to pixel coordinate is a bijection from one channel's byte/bit
pairs onto the channel's pixel grid — so packing any set of pixel
coordinates and unpacking it reproduces exactly that set, with no
duplicates and no omissions. -/
theorem coord_map_bijOn (cfg : Config)
    (h8 : cfg.width * cfg.height % 8 = 0) :
    Set.BijOn (fun bi : Nat × Nat => coordOfBit cfg bi.1 bi.2)
      { bi : Nat × Nat | bi.1 < cfg.bytes_per_channel ∧ bi.2 < 8 }
      { xy : Nat × Nat | xy.1 < cfg.width ∧ xy.2 < cfg.height } := by
  have hmul : 8 * cfg.bytes_per_channel = cfg.width * cfg.height := by
    unfold Config.bytes_per_channel Config.pixels_per_channel
    exact Nat.mul_div_cancel' (Nat.dvd_of_mod_eq_zero h8)
  have hpix := pixelIndex_bijOn cfg.msb_first cfg.bytes_per_channel
  rw [hmul] at hpix
  by_cases hrm : cfg.row_major
  · have hcomp := (divmod_row_bijOn cfg.width cfg.height).comp hpix
    refine hcomp.congr ?_
    intro bi hbi
    simp [Function.comp, coordOfBit, hrm]
  · have hcomp := (divmod_col_bijOn cfg.width cfg.height).comp hpix
    refine hcomp.congr ?_
    intro bi hbi
    simp [Function.comp, coordOfBit, hrm]

/-- Witness for C5 at the concrete 8-by-2 geometry. -/
theorem coord_map_bijOn_witness :
    cfgNoHeader.width * cfgNoHeader.height % 8 = 0 ∧
    Set.BijOn (fun bi : Nat × Nat => coordOfBit cfgNoHeader bi.1 bi.2)
      { bi : Nat × Nat | bi.1 < cfgNoHeader.bytes_per_channel ∧ bi.2 < 8 }
      { xy : Nat × Nat |
          xy.1 < cfgNoHeader.width ∧ xy.2 < cfgNoHeader.height } :=
  ⟨by decide, coord_map_bijOn cfgNoHeader (by decide)⟩

end DVBridge
